import Mathlib

/-!
Verification of the ksef-pdf-generator CLI core.

Shallow embedding of `src/cli.ts` (and the embedded UPO generator module) of
the ksef-pdf-generator repository, together with models of the components the
repository's specification describes whose sources are not part of the
snapshot (the prefix normalizer `stripPrefixes` and the shared currency
formatter).  JavaScript strings become `String`, `undefined`/optional values
become `Option`, thrown `Error`s become `Except String`, and JS objects with
a known field set become structures.
-/

/-! ## Data model of the parsed XML tree, as typed in `cli.ts` -/

/-- Model of the `_attributes` object of `KodFormularza`: carries the
`kodSystemowy` attribute (the versioned form code string). -/
structure KodAttributes where
  kodSystemowy : Option String
  deriving DecidableEq

/-- Model of `Naglowek.KodFormularza`; the field `attributes` models the
JavaScript `_attributes` key produced by the compact xml-js output. -/
structure KodFormularza where
  attributes : Option KodAttributes
  deriving DecidableEq

/-- Model of the invoice header `Naglowek`. -/
structure Naglowek where
  KodFormularza : Option KodFormularza
  deriving DecidableEq

/-- Model of the `Faktura` element.  Only the header matters to `cli.ts`;
the remaining invoice content is consumed by the external version builders. -/
structure Faktura where
  Naglowek : Option Naglowek
  deriving DecidableEq

/-- Model of the `Potwierdzenie` (UPO) element.  `cli.ts` only tests the key
for presence and forwards the value to the external UPO content generators,
so the model has no fields. -/
structure Potwierdzenie where
  deriving DecidableEq

/-- Model of the `ParsedXml` interface of `cli.ts`: the normalized tree may
carry a top-level `Faktura` key, a top-level `Potwierdzenie` key, both, or
neither. -/
structure ParsedXml where
  Faktura : Option Faktura
  Potwierdzenie : Option Potwierdzenie
  deriving DecidableEq

/-- Model of `AdditionalDataTypes`: the out-of-band data handed to the
invoice builders. -/
structure AdditionalDataTypes where
  nrKSeF : String
  qrCode : Option String
  deriving DecidableEq

/-- The three invoice builder entry points dispatched to by
`generatePDFByVersion` (their bodies live outside the snapshot). -/
inductive BuilderTag where
  | generateFA1
  | generateFA2
  | generateFA3
  deriving DecidableEq

/-! ## Classification and validation (`cli.ts` lines 97-108) -/

/-- Model of `detectDocumentType` from `cli.ts`: checks the top-level keys in order
(`Faktura` first, then `Potwierdzenie`) and throws when neither exists.
Document types are kept as the literal strings the JS code uses. -/
def detectDocumentType (xml : ParsedXml) : Except String String :=
  if xml.Faktura.isSome then .ok "invoice"
  else if xml.Potwierdzenie.isSome then .ok "upo"
  else .error "Unable to detect document type. Use -t invoice or -t upo"

/-- Model of `validateDocumentType` from `cli.ts`.  A missing or empty (JS-falsy)
value passes; any other value must be `invoice` or `upo`. -/
def validateDocumentType (t : Option String) : Except String Unit :=
  match t with
  | none => .ok ()
  | some s =>
      if s = "" then .ok ()
      else if s = "invoice" then .ok ()
      else if s = "upo" then .ok ()
      else .error ("Invalid document type: " ++ s ++ ". Must be invoice or upo")

/-- The document-type resolution performed by `processFile` (lines 204-205):
first `validateDocumentType(values.type)`, then
`values.type || detectDocumentType(parsedXml)` (JS `||`, so the empty string
falls back to detection). -/
def resolveDocType (t : Option String) (xml : ParsedXml) : Except String String :=
  match validateDocumentType t with
  | .error m => .error m
  | .ok _ =>
      match t with
      | none => detectDocumentType xml
      | some s => if s = "" then detectDocumentType xml else .ok s

/-! ## Invoice generation (`cli.ts` lines 110-164) -/

/-- Model of `generatePDFByVersion` from `cli.ts`: a `switch` over the version string
with cases for exactly the three literal codes and no `default`, so any
other string falls through and the call evaluates to `undefined` (`none`). -/
def generatePDFByVersion (version : String) : Option BuilderTag :=
  if version = "FA (1)" then some .generateFA1
  else if version = "FA (2)" then some .generateFA2
  else if version = "FA (3)" then some .generateFA3
  else none

/-- The optional chain
`xml.Faktura.Naglowek?.KodFormularza?._attributes?.kodSystemowy`. -/
def readVersion (f : Faktura) : Option String :=
  ((f.Naglowek.bind Naglowek.KodFormularza).bind KodFormularza.attributes).bind
    KodAttributes.kodSystemowy

/-- JS truthiness test `!version` for an optional string: `undefined` and
the empty string are falsy. -/
def jsFalsyStr (o : Option String) : Bool :=
  match o with
  | none => true
  | some s => s = ""

/-- JS `a || b` for an optional string `a` and a string default `b`. -/
def jsOrDefault (o : Option String) (d : String) : String :=
  match o with
  | none => d
  | some s => if s = "" then d else s

/-- Outcome of `generateInvoicePDF` up to (but not including) the external
blob rendering step. -/
inductive GenOutcome where
  /-- Dispatched to the named version builder with the given
  `AdditionalData`; rendering then proceeds externally. -/
  | ok (builder : BuilderTag) (data : AdditionalDataTypes)
  /-- A thrown `Error` with a descriptive message. -/
  | descriptiveError (msg : String)
  /-- The `switch` produced no generator (`pdf` is `undefined`) and
  `pdf.getBlob(...)` raises a runtime `TypeError`, not a thrown descriptive
  `Error`. -/
  | typeErrorCrash
  deriving DecidableEq

/-- Model of `generateInvoicePDF` from `cli.ts` (lines 131-164), modeled up to the
builder dispatch: missing `Faktura` and missing/falsy version code throw
descriptive errors; otherwise `AdditionalData` is assembled
(`nrKSeF || 'CLI-GENERATED'`, `qrCode` passed through) and the version
string selects the builder. -/
def generateInvoicePDF (xml : ParsedXml) (nrKSeF qrCode : Option String) :
    GenOutcome :=
  match xml.Faktura with
  | none => .descriptiveError "Invalid invoice XML: missing Faktura element"
  | some faktura =>
      let version := readVersion faktura
      if jsFalsyStr version then
        .descriptiveError "Invalid invoice XML: missing version information"
      else
        let additionalData : AdditionalDataTypes :=
          { nrKSeF := jsOrDefault nrKSeF "CLI-GENERATED", qrCode := qrCode }
        match generatePDFByVersion (version.getD "") with
        | some builder => .ok builder additionalData
        | none => .typeErrorCrash

/-- Recognizer for the descriptive-failure outcomes of `generateInvoicePDF`. -/
def isDescriptiveFailure (o : GenOutcome) : Bool :=
  match o with
  | .descriptiveError _ => true
  | _ => false

/-! ## Output path derivation (`cli.ts` lines 172-177) -/

/-- ASCII lowering of a character, the fragment of JS `toLowerCase`
exercised by file paths. -/
def lowerChar (c : Char) : Char :=
  if 'A' ≤ c ∧ c ≤ 'Z' then Char.ofNat (c.toNat + 32) else c

/-- JS `s.toLowerCase()` on the ASCII fragment. -/
def jsToLower (s : String) : String :=
  String.mk (s.data.map lowerChar)

/-- JS `s.endsWith(suffix)`. -/
def jsEndsWith (s suffix : String) : Bool :=
  suffix.data.isSuffixOf s.data

/-- JS `s.slice(0, -4)`: drop the final four characters. -/
def jsDropLast4 (s : String) : String :=
  String.mk (s.data.take (s.data.length - 4))

/-- Model of `getOutputPath` from `cli.ts`: an explicit output argument wins;
otherwise a case-insensitive `.xml` suffix is replaced by `.pdf`, and any
other path simply gains a `.pdf` suffix. -/
def getOutputPath (inputPath : String) (outputArg : Option String) : String :=
  match outputArg with
  | some o => o
  | none =>
      if jsEndsWith (jsToLower inputPath) ".xml" then
        jsDropLast4 inputPath ++ ".pdf"
      else inputPath ++ ".pdf"

/-- Spec-side restatement for the output-path claim: the last four
characters, compared case-insensitively, form `.xml`. -/
def isXmlSuffixCI (s : String) : Bool :=
  s.data.map lowerChar = ['.', 'x', 'm', 'l']

/-- The last four characters of a string. -/
def lastFour (s : String) : String :=
  String.mk (s.data.drop (s.data.length - 4))

/-! ## The UPO generator module (embedded in the snapshot after `cli.ts`) -/

/-- Model of the `Upo` wrapper: `{ Potwierdzenie: xml.Potwierdzenie }`. -/
structure Upo where
  Potwierdzenie : Option Potwierdzenie
  deriving DecidableEq

/-- Alignment values of the shared `Position` enum.  The enum source is not
part of the snapshot; only `Position.RIGHT` is referenced here. -/
inductive Position where
  | RIGHT
  | LEFT
  | CENTER
  deriving DecidableEq

/-- The footer object returned by the UPO `footer` function: a text node with
alignment and margins. -/
structure FooterNode where
  text : String
  alignment : Position
  margin : List Int
  deriving DecidableEq

/-- Modelled from the spec: the global style block emitted by
`generateStyle` (shared/PDF-functions, not under the snapshot) — font, base
sizes and margins; its contents are irrelevant to the claims, so it is a
fieldless marker. -/
structure StyleBlock where
  deriving DecidableEq

/-- Content entries of the UPO document definition.  The content generators
`generateNaglowekUPO`/`generateDokumnetUPO` are not under the snapshot; the
model records which generator was applied to which input. -/
inductive UPOContent where
  | naglowekUPO (p : Option Potwierdzenie)
  | dokumentUPO (p : Option Potwierdzenie)
  deriving DecidableEq

/-- Model of the pdfmake `TDocumentDefinitions` fields the UPO generator
sets: the content list, the spread style block, page size, page orientation
and the footer generating rule (a function of the renderer-supplied current
page and page count). -/
structure DocDefinition where
  content : List UPOContent
  style : StyleBlock
  pageSize : String
  pageOrientation : String
  footer : Nat → Nat → FooterNode

/-- Model of `generatePDFUPOFromParsed` from the snapshot, up to the external
pdfmake rendering: the document definition it assembles. -/
def generatePDFUPOFromParsed (upo : Upo) : DocDefinition :=
  { content := [.naglowekUPO upo.Potwierdzenie, .dokumentUPO upo.Potwierdzenie]
    style := {}
    pageSize := "A4"
    pageOrientation := "landscape"
    footer := fun currentPage pageCount =>
      { text := Nat.repr currentPage ++ " z " ++ Nat.repr pageCount
        alignment := Position.RIGHT
        margin := [0, 0, 20, 0] } }

/-- Modelled from the spec: the FA1/FA2/FA3 invoice generators are not under
the snapshot; per the spec the layout assembler uses page size A4 and
portrait orientation for every invoice document, whatever its schema
version. -/
def invoicePageDescriptor (_version : String) : String × String :=
  ("A4", "portrait")

/-! ## End-to-end file processing (`cli.ts` lines 188-228) -/

/-- A produced PDF blob, modeled by its bytes. -/
structure Blob where
  bytes : List Nat
  deriving DecidableEq

/-- The `SuccessResult` record emitted by `processFile`. -/
structure SuccessResult where
  input : String
  output : String
  type : String
  size : Nat
  deriving DecidableEq

/-- The characters since the last separator, accumulated left to right: the
common core of `basename` (separator `/`) and of namespace-prefix stripping
(separator `:`). -/
def afterLastSepAux (sep : Char) (acc : List Char) : List Char → List Char
  | [] => acc
  | c :: cs => afterLastSepAux sep (if c = sep then [] else acc ++ [c]) cs

/-- Model of node `basename`: the path component after the last `/`. -/
def basenameStr (s : String) : String :=
  String.mk (afterLastSepAux '/' [] s.data)

/-- The environment of one `processFile` run: the CLI arguments, the state
of the input file, and oracles for the external collaborators (the XML
parser library and the pdfmake blob rendering). -/
structure CliEnv where
  inputPath : String
  outputArg : Option String
  typeArg : Option String
  ksefArg : Option String
  qrArg : Option String
  fileExists : Bool
  fileContent : String
  /-- Outcome of `xml2js` + `stripPrefixes` on `fileContent` (external). -/
  parseResult : Except String ParsedXml
  /-- Outcome of `pdf.getBlob` for the dispatched invoice builder
  (external): `none` models a missing blob. -/
  renderInvoice : BuilderTag → AdditionalDataTypes → Option Blob
  /-- Outcome of `pdfMake.createPdf(docDefinition).getBlob` for the UPO
  document definition (external). -/
  renderUpo : Upo → Option Blob

/-- The invoice branch of `processFile`: `generateInvoicePDF` followed by
the external blob rendering.  A missing blob rejects with
`Failed to generate PDF blob`; a `typeErrorCrash` surfaces as the runtime
`TypeError` message of the JS engine. -/
def invoiceBlobResult (env : CliEnv) (xml : ParsedXml) : Except String Blob :=
  match generateInvoicePDF xml env.ksefArg env.qrArg with
  | .descriptiveError m => .error m
  | .typeErrorCrash => .error "TypeError: pdf is undefined"
  | .ok builder data =>
      match env.renderInvoice builder data with
      | some b => .ok b
      | none => .error "Failed to generate PDF blob"

/-- The UPO branch of `processFile`: `generateUPOPDF` wraps the parsed
`Potwierdzenie` and renders it; the source rejects with the literal string
`Error` when no blob is produced. -/
def upoBlobResult (env : CliEnv) (xml : ParsedXml) : Except String Blob :=
  match env.renderUpo { Potwierdzenie := xml.Potwierdzenie } with
  | some b => .ok b
  | none => .error "Error"

/-- Model of `processFile` from `cli.ts` (lines 188-228): existence check, emptiness
check, XML parse, document-type resolution, PDF generation, and only then
the single `writeFileSync`.  The second component records every file write
the run performs. -/
def processFile (env : CliEnv) :
    Except String SuccessResult × List (String × Blob) :=
  if env.fileExists = false then
    (.error ("File not found: " ++ basenameStr env.inputPath), [])
  else if env.fileContent.trim = "" then
    (.error "XML file is empty", [])
  else
    match env.parseResult with
    | .error m => (.error ("Failed to parse XML: " ++ m), [])
    | .ok parsedXml =>
        match resolveDocType env.typeArg parsedXml with
        | .error m => (.error m, [])
        | .ok docType =>
            match (if docType = "invoice" then invoiceBlobResult env parsedXml
                   else upoBlobResult env parsedXml) with
            | .error m => (.error m, [])
            | .ok blob =>
                let outputPath := getOutputPath env.inputPath env.outputArg
                (.ok { input := basenameStr env.inputPath
                       output := basenameStr outputPath
                       type := docType
                       size := blob.bytes.length },
                 [(outputPath, blob)])

/-! ## Currency formatter (modelled from the spec) -/

/-- Value of a list of decimal digit characters. -/
def digitsToNat (l : List Char) : Nat :=
  l.foldl (fun a c => a * 10 + (c.toNat - 48)) 0

/-- Modelled from the spec: the shared currency formatter is not under the
snapshot.  A numeric string is an optional-fraction decimal literal:
nonempty digits, optionally followed by a dot and nonempty digits.  The
result is the integer value scaled so that `(i, f, k)` denotes
`i + f / 10 ^ k`. -/
def parseDecimal (s : String) : Option (Nat × Nat × Nat) :=
  match s.data.splitOn '.' with
  | [intPart] =>
      if intPart ≠ [] ∧ intPart.all Char.isDigit then
        some (digitsToNat intPart, 0, 0)
      else none
  | [intPart, fracPart] =>
      if intPart ≠ [] ∧ fracPart ≠ [] ∧ intPart.all Char.isDigit ∧
          fracPart.all Char.isDigit then
        some (digitsToNat intPart, digitsToNat fracPart, fracPart.length)
      else none
  | _ => none

/-- Two-digit zero-padded rendering of a number below 100. -/
def padTwo (n : Nat) : String :=
  if n < 10 then "0" ++ Nat.repr n else Nat.repr n

/-- Modelled from the spec: render `i + f / 10 ^ k` with exactly two decimal
places, rounding half up. -/
def renderTwoDecimals (i f k : Nat) : String :=
  let total := ((i * 10 ^ k + f) * 100 * 2 + 10 ^ k) / (2 * 10 ^ k)
  Nat.repr (total / 100) ++ "." ++ padTwo (total % 100)

/-- Modelled from the spec: the currency formatter — a numeric string
becomes a fixed two-decimal amount, any other string passes through
unchanged (never throws). -/
def formatCurrency (s : String) : String :=
  match parseDecimal s with
  | none => s
  | some (i, f, k) => renderTwoDecimals i f k

/-! ## Prefix normalizer (modelled from the spec)

`stripPrefixes` (shared/XML-parser) is not under the snapshot; the model
follows §4.1 of the spec: a parsed XML tree is either a leaf with text and
an attribute map or a branch mapping child tag names to a node or to an
ordered sequence of nodes; normalization reduces every `prefix:localName`
key to `localName`, recursively, including inside attribute maps and
sequences, leaving text untouched; when two sibling keys collapse to the
same local name the later one observed wins, at its first position, as in a
JavaScript object assignment.  JS objects become ordered association
lists. -/

/-- An ordered attribute map: attribute name/value pairs. -/
inductive AttrList where
  | nil
  | cons (key val : String) (rest : AttrList)
  deriving DecidableEq

mutual
/-- A parsed XML tree node: a text leaf with attributes, or a branch of
keyed children. -/
inductive XmlNode where
  | leaf (text : String) (attrs : AttrList)
  | branch (children : ChildList)
/-- The ordered children map of a branch: tag name to child entry. -/
inductive ChildList where
  | nil
  | cons (key : String) (child : XmlChild) (rest : ChildList)
/-- A child entry: a single node, or an ordered sequence of nodes for a
repeated tag. -/
inductive XmlChild where
  | one (node : XmlNode)
  | many (nodes : NodeSeq)
/-- An ordered sequence of nodes. -/
inductive NodeSeq where
  | nil
  | cons (node : XmlNode) (rest : NodeSeq)
end

/-- The local name of a (possibly prefixed) key: everything after the last
colon. -/
def stripName (s : String) : String :=
  String.mk (afterLastSepAux ':' [] s.data)

/-- Tests that a string contains no colon. -/
def noColonStr (s : String) : Bool :=
  s.data.all (fun c => c != ':')

/-! ### Last-write-wins association machinery on `AttrList` -/

/-- Does a key occur in the attribute list? -/
def attrHasKey (k : String) : AttrList → Bool
  | .nil => false
  | .cons k2 _ rest => (k2 = k) || attrHasKey k rest

/-- The value the key ends up with in a JS object built from the pairs:
the last value written for the key, starting from a default. -/
def attrLastVal (k : String) (v : String) : AttrList → String
  | .nil => v
  | .cons k2 v2 rest => attrLastVal k (if k2 = k then v2 else v) rest

/-- Remove every pair carrying the key. -/
def attrRemoveKey (k : String) : AttrList → AttrList
  | .nil => .nil
  | .cons k2 v2 rest =>
      if k2 = k then attrRemoveKey k rest
      else .cons k2 v2 (attrRemoveKey k rest)

/-- A JS object built by assigning the pairs in order: keys in order of
first occurrence, each carrying the last value written for it.  (Stated by
structural recursion: the head key takes its last written value and is
removed from the rebuilt tail.) -/
def attrDedupLW : AttrList → AttrList
  | .nil => .nil
  | .cons k v rest =>
      .cons k (attrLastVal k v rest) (attrRemoveKey k (attrDedupLW rest))

/-- Are the keys pairwise distinct? -/
def attrDistinct : AttrList → Bool
  | .nil => true
  | .cons k _ rest => (!attrHasKey k rest) && attrDistinct rest

/-- Are all keys colon-free? -/
def attrNoColonKeys : AttrList → Bool
  | .nil => true
  | .cons k _ rest => noColonStr k && attrNoColonKeys rest

/-- Strip every attribute key to its local name (values untouched). -/
def normAttrs : AttrList → AttrList
  | .nil => .nil
  | .cons k v rest => .cons (stripName k) v (normAttrs rest)

/-- Prepend `p:` to every attribute key. -/
def addPrefixAttrs (p : String) : AttrList → AttrList
  | .nil => .nil
  | .cons k v rest => .cons (p ++ ":" ++ k) v (addPrefixAttrs p rest)

/-- The attribute keys, in order. -/
def attrKeys : AttrList → List String
  | .nil => []
  | .cons k _ rest => k :: attrKeys rest

/-- The attribute values, in order. -/
def attrVals : AttrList → List String
  | .nil => []
  | .cons _ v rest => v :: attrVals rest

/-! ### Last-write-wins association machinery on `ChildList` -/

/-- Does a tag occur among the children? -/
def childHasKey (k : String) : ChildList → Bool
  | .nil => false
  | .cons k2 _ rest => (k2 = k) || childHasKey k rest

/-- The child the tag ends up with: the last one written, starting from a
default. -/
def childLastVal (k : String) (c : XmlChild) : ChildList → XmlChild
  | .nil => c
  | .cons k2 c2 rest => childLastVal k (if k2 = k then c2 else c) rest

/-- Remove every entry carrying the tag. -/
def childRemoveKey (k : String) : ChildList → ChildList
  | .nil => .nil
  | .cons k2 c2 rest =>
      if k2 = k then childRemoveKey k rest
      else .cons k2 c2 (childRemoveKey k rest)

/-- A JS object built by assigning the entries in order: tags in order of
first occurrence, each carrying the last child written for it.  (Stated by
structural recursion: the head tag takes its last written child and is
removed from the rebuilt tail.) -/
def childDedupLW : ChildList → ChildList
  | .nil => .nil
  | .cons k c rest =>
      .cons k (childLastVal k c rest) (childRemoveKey k (childDedupLW rest))

/-- Are the tags pairwise distinct? -/
def childDistinct : ChildList → Bool
  | .nil => true
  | .cons k _ rest => (!childHasKey k rest) && childDistinct rest

/-- The child tags, in order. -/
def childKeys : ChildList → List String
  | .nil => []
  | .cons k _ rest => k :: childKeys rest

/-! ### Normalization, re-prefixing, collision freedom and erasure -/

mutual
/-- Modelled from the spec: `stripPrefixes` on a node — strip every element
and attribute key to its local name, recursively, then rebuild the JS
objects (last write wins). -/
def normNode : XmlNode → XmlNode
  | .leaf t attrs => .leaf t (attrDedupLW (normAttrs attrs))
  | .branch ch => .branch (childDedupLW (normChildren ch))
/-- Action of `stripPrefixes` on the entries of a branch, before object rebuild. -/
def normChildren : ChildList → ChildList
  | .nil => .nil
  | .cons k c rest => .cons (stripName k) (normChild c) (normChildren rest)
/-- Action of `stripPrefixes` on a child entry. -/
def normChild : XmlChild → XmlChild
  | .one n => .one (normNode n)
  | .many ns => .many (normSeq ns)
/-- Action of `stripPrefixes` on a node sequence. -/
def normSeq : NodeSeq → NodeSeq
  | .nil => .nil
  | .cons n rest => .cons (normNode n) (normSeq rest)
end

/-- Modelled from the spec: the prefix normalizer `stripPrefixes`. -/
def stripPrefixes (t : XmlNode) : XmlNode := normNode t

mutual
/-- Re-attach a fixed namespace to every key of a node. -/
def addPrefixNode (p : String) : XmlNode → XmlNode
  | .leaf t attrs => .leaf t (addPrefixAttrs p attrs)
  | .branch ch => .branch (addPrefixChildren p ch)
/-- Re-attach a fixed namespace to every key of a branch. -/
def addPrefixChildren (p : String) : ChildList → ChildList
  | .nil => .nil
  | .cons k c rest =>
      .cons (p ++ ":" ++ k) (addPrefixChild p c) (addPrefixChildren p rest)
/-- Re-attach a fixed namespace inside a child entry. -/
def addPrefixChild (p : String) : XmlChild → XmlChild
  | .one n => .one (addPrefixNode p n)
  | .many ns => .many (addPrefixSeq p ns)
/-- Re-attach a fixed namespace inside a node sequence. -/
def addPrefixSeq (p : String) : NodeSeq → NodeSeq
  | .nil => .nil
  | .cons n rest => .cons (addPrefixNode p n) (addPrefixSeq p rest)
end

mutual
/-- Is the node already in normalized form: colon-free, pairwise distinct
keys in every object, recursively? -/
def strippedNode : XmlNode → Bool
  | .leaf _ attrs => attrDistinct attrs && attrNoColonKeys attrs
  | .branch ch => childDistinct ch && strippedChildren ch
/-- Entrywise normal form of a branch: colon-free keys, normalized
children. -/
def strippedChildren : ChildList → Bool
  | .nil => true
  | .cons k c rest => noColonStr k && strippedChild c && strippedChildren rest
/-- Normal form of a child entry. -/
def strippedChild : XmlChild → Bool
  | .one n => strippedNode n
  | .many ns => strippedSeq ns
/-- Normal form of a node sequence. -/
def strippedSeq : NodeSeq → Bool
  | .nil => true
  | .cons n rest => strippedNode n && strippedSeq rest
end

/-- Are the strings pairwise distinct? -/
def strDistinct : List String → Bool
  | [] => true
  | k :: ks => (!ks.contains k) && strDistinct ks

mutual
/-- No two sibling keys of the tree collapse to the same local name when
their namespaces are stripped (the collision-free assumption the spec
flags for the legal schemas). -/
def noCollideNode : XmlNode → Bool
  | .leaf _ attrs => strDistinct ((attrKeys attrs).map stripName)
  | .branch ch =>
      strDistinct ((childKeys ch).map stripName) && noCollideChildren ch
/-- Collision freedom of the children of a branch. -/
def noCollideChildren : ChildList → Bool
  | .nil => true
  | .cons _ c rest => noCollideChild c && noCollideChildren rest
/-- Collision freedom inside a child entry. -/
def noCollideChild : XmlChild → Bool
  | .one n => noCollideNode n
  | .many ns => noCollideSeq ns
/-- Collision freedom inside a node sequence. -/
def noCollideSeq : NodeSeq → Bool
  | .nil => true
  | .cons n rest => noCollideNode n && noCollideSeq rest
end

mutual
/-- The keyless skeleton of a node: structural shape (leaf vs. branch vs.
sequence) plus all text content (leaf texts and attribute values). -/
inductive ENode where
  | leaf (text : String) (attrVals : List String)
  | branch (children : List EChild)
/-- The keyless skeleton of a child entry. -/
inductive EChild where
  | one (node : ENode)
  | many (nodes : List ENode)
end

mutual
/-- Erase the keys of a node, keeping shape and text. -/
def eraseNode : XmlNode → ENode
  | .leaf t attrs => .leaf t (attrVals attrs)
  | .branch ch => .branch (eraseChildren ch)
/-- Erase the keys of the children of a branch. -/
def eraseChildren : ChildList → List EChild
  | .nil => []
  | .cons _ c rest => eraseChild c :: eraseChildren rest
/-- Erase the keys inside a child entry. -/
def eraseChild : XmlChild → EChild
  | .one n => .one (eraseNode n)
  | .many ns => .many (eraseSeq ns)
/-- Erase the keys inside a node sequence. -/
def eraseSeq : NodeSeq → List ENode
  | .nil => []
  | .cons n rest => eraseNode n :: eraseSeq rest
end

/-! ## Concrete sample inputs -/

/-- A `Faktura` whose nested form-code attribute carries the given code. -/
def fakturaWithCode (code : String) : Faktura :=
  { Naglowek := some
      { KodFormularza := some { attributes := some { kodSystemowy := some code } } } }

/-- A parsed tree with a top-level `Faktura` carrying the given form code. -/
def xmlWithCode (code : String) : ParsedXml :=
  { Faktura := some (fakturaWithCode code), Potwierdzenie := none }

/-- A parsed tree with only a top-level `Potwierdzenie`. -/
def xmlUpoOnly : ParsedXml :=
  { Faktura := none, Potwierdzenie := some {} }

/-- A parsed tree with neither recognized top-level key. -/
def xmlNeither : ParsedXml :=
  { Faktura := none, Potwierdzenie := none }

/-- A concrete namespace-prefixed tree exercising elements, attributes and a
repeated-tag sequence. -/
def prefixedSampleTree : XmlNode :=
  .branch (.cons "ns2:Faktura"
    (.one (.branch (.cons "ns2:Naglowek"
      (.one (.leaf "FA (2)" (.cons "xsi:kodSystemowy" "FA (2)" .nil))) .nil)))
    (.cons "upo:Potwierdzenie" (.many (.cons (.leaf "ok" .nil) .nil)) .nil))

/-- A run environment whose caller-supplied type override is unsupported. -/
def envInvalidType : CliEnv :=
  { inputPath := "dokument.xml"
    outputArg := none
    typeArg := some "xyz"
    ksefArg := none
    qrArg := none
    fileExists := true
    fileContent := "<Faktura/>"
    parseResult := .ok (xmlWithCode "FA (2)")
    renderInvoice := fun _ _ => none
    renderUpo := fun _ => none }

/-! ## Lemmas about separator scanning and `stripName` -/

theorem afterLastSepAux_no_sep (sep : Char) :
    ∀ (cs acc : List Char), (∀ c ∈ cs, c ≠ sep) →
      afterLastSepAux sep acc cs = acc ++ cs := by
  intro cs
  induction cs with
  | nil => intro acc _; simp [afterLastSepAux]
  | cons c cs ih =>
      intro acc h
      have hc : c ≠ sep := h c (List.mem_cons_self c cs)
      simp only [afterLastSepAux, if_neg hc]
      rw [ih (acc ++ [c]) (fun x hx => h x (List.mem_cons_of_mem c hx))]
      simp

theorem afterLastSepAux_append_sep (sep : Char) :
    ∀ (l acc cs : List Char),
      afterLastSepAux sep acc (l ++ sep :: cs) = afterLastSepAux sep [] cs := by
  intro l
  induction l with
  | nil =>
      intro acc cs
      simp [afterLastSepAux]
  | cons c l ih =>
      intro acc cs
      simp only [List.cons_append, afterLastSepAux]
      exact ih _ cs

theorem afterLastSepAux_no_sep_out (sep : Char) :
    ∀ (cs acc : List Char), (∀ c ∈ acc, c ≠ sep) →
      ∀ c ∈ afterLastSepAux sep acc cs, c ≠ sep := by
  intro cs
  induction cs with
  | nil => intro acc h; simpa [afterLastSepAux] using h
  | cons c cs ih =>
      intro acc h
      simp only [afterLastSepAux]
      by_cases hc : c = sep
      · rw [if_pos hc]
        exact ih [] (by simp)
      · rw [if_neg hc]
        refine ih (acc ++ [c]) ?_
        intro x hx
        rcases List.mem_append.mp hx with h1 | h2
        · exact h x h1
        · simp only [List.mem_singleton] at h2
          subst h2
          exact hc

theorem noColonStr_iff (s : String) :
    noColonStr s = true ↔ ∀ c ∈ s.data, c ≠ ':' := by
  simp [noColonStr, List.all_eq_true]

theorem noColonStr_stripName (s : String) : noColonStr (stripName s) = true := by
  rw [noColonStr_iff]
  show ∀ c ∈ afterLastSepAux ':' [] s.data, c ≠ ':'
  exact afterLastSepAux_no_sep_out ':' s.data [] (by simp)

theorem stripName_prefixed (p x : String) (h : noColonStr x = true) :
    stripName (p ++ ":" ++ x) = x := by
  have hdata : (p ++ ":" ++ x).data = p.data ++ ':' :: x.data := by
    simp only [String.data_append]
    simp [String]
  simp only [stripName, hdata]
  rw [afterLastSepAux_append_sep]
  rw [afterLastSepAux_no_sep ':' x.data [] ((noColonStr_iff x).mp h)]
  rfl

/-! ## Lemmas about the attribute-list machinery -/

theorem attrHasKey_removeKey_self (k : String) :
    ∀ l : AttrList, attrHasKey k (attrRemoveKey k l) = false
  | .nil => rfl
  | .cons k2 v2 rest => by
      by_cases h : k2 = k
      · simp only [attrRemoveKey, if_pos h]
        exact attrHasKey_removeKey_self k rest
      · simp only [attrRemoveKey, if_neg h, attrHasKey, decide_eq_true_eq]
        simp [h, attrHasKey_removeKey_self k rest]

theorem attrHasKey_removeKey_le (k x : String) :
    ∀ l : AttrList, attrHasKey x l = false →
      attrHasKey x (attrRemoveKey k l) = false
  | .nil => fun _ => rfl
  | .cons k2 v2 rest => by
      intro h
      simp only [attrHasKey, Bool.or_eq_false_iff, decide_eq_false_iff_not] at h
      by_cases h2 : k2 = k
      · simp only [attrRemoveKey, if_pos h2]
        exact attrHasKey_removeKey_le k x rest h.2
      · simp only [attrRemoveKey, if_neg h2, attrHasKey, Bool.or_eq_false_iff,
          decide_eq_false_iff_not]
        exact ⟨h.1, attrHasKey_removeKey_le k x rest h.2⟩

theorem attrHasKey_dedup_le (x : String) :
    ∀ l : AttrList, attrHasKey x l = false →
      attrHasKey x (attrDedupLW l) = false
  | .nil => fun _ => rfl
  | .cons k v rest => by
      intro h
      simp only [attrHasKey, Bool.or_eq_false_iff, decide_eq_false_iff_not] at h
      simp only [attrDedupLW, attrHasKey, Bool.or_eq_false_iff,
        decide_eq_false_iff_not]
      exact ⟨h.1,
        attrHasKey_removeKey_le k x (attrDedupLW rest)
          (attrHasKey_dedup_le x rest h.2)⟩

theorem attrDistinct_removeKey (k : String) :
    ∀ l : AttrList, attrDistinct l = true →
      attrDistinct (attrRemoveKey k l) = true
  | .nil => fun _ => rfl
  | .cons k2 v2 rest => by
      intro h
      simp only [attrDistinct, Bool.and_eq_true, Bool.not_eq_true'] at h
      by_cases h2 : k2 = k
      · simp only [attrRemoveKey, if_pos h2]
        exact attrDistinct_removeKey k rest h.2
      · simp only [attrRemoveKey, if_neg h2, attrDistinct, Bool.and_eq_true,
          Bool.not_eq_true']
        exact ⟨attrHasKey_removeKey_le k k2 rest h.1,
          attrDistinct_removeKey k rest h.2⟩

theorem attrDistinct_dedup :
    ∀ l : AttrList, attrDistinct (attrDedupLW l) = true
  | .nil => rfl
  | .cons k v rest => by
      simp only [attrDedupLW, attrDistinct, Bool.and_eq_true, Bool.not_eq_true']
      exact ⟨attrHasKey_removeKey_self k (attrDedupLW rest),
        attrDistinct_removeKey k (attrDedupLW rest) (attrDistinct_dedup rest)⟩

theorem attrLastVal_of_not_hasKey (k v : String) :
    ∀ l : AttrList, attrHasKey k l = false → attrLastVal k v l = v
  | .nil => fun _ => rfl
  | .cons k2 v2 rest => by
      intro h
      simp only [attrHasKey, Bool.or_eq_false_iff, decide_eq_false_iff_not] at h
      simp only [attrLastVal, if_neg h.1]
      exact attrLastVal_of_not_hasKey k v rest h.2

theorem attrRemoveKey_of_not_hasKey (k : String) :
    ∀ l : AttrList, attrHasKey k l = false → attrRemoveKey k l = l
  | .nil => fun _ => rfl
  | .cons k2 v2 rest => by
      intro h
      simp only [attrHasKey, Bool.or_eq_false_iff, decide_eq_false_iff_not] at h
      simp only [attrRemoveKey, if_neg h.1]
      rw [attrRemoveKey_of_not_hasKey k rest h.2]

theorem attrDedup_of_distinct :
    ∀ l : AttrList, attrDistinct l = true → attrDedupLW l = l
  | .nil => fun _ => rfl
  | .cons k v rest => by
      intro h
      simp only [attrDistinct, Bool.and_eq_true, Bool.not_eq_true'] at h
      simp only [attrDedupLW]
      rw [attrLastVal_of_not_hasKey k v rest h.1,
        attrDedup_of_distinct rest h.2,
        attrRemoveKey_of_not_hasKey k rest h.1]

theorem attrNoColonKeys_removeKey (k : String) :
    ∀ l : AttrList, attrNoColonKeys l = true →
      attrNoColonKeys (attrRemoveKey k l) = true
  | .nil => fun _ => rfl
  | .cons k2 v2 rest => by
      intro h
      simp only [attrNoColonKeys, Bool.and_eq_true] at h
      by_cases h2 : k2 = k
      · simp only [attrRemoveKey, if_pos h2]
        exact attrNoColonKeys_removeKey k rest h.2
      · simp only [attrRemoveKey, if_neg h2, attrNoColonKeys, Bool.and_eq_true]
        exact ⟨h.1, attrNoColonKeys_removeKey k rest h.2⟩

theorem attrNoColonKeys_dedup :
    ∀ l : AttrList, attrNoColonKeys l = true →
      attrNoColonKeys (attrDedupLW l) = true
  | .nil => fun _ => rfl
  | .cons k v rest => by
      intro h
      simp only [attrNoColonKeys, Bool.and_eq_true] at h
      simp only [attrDedupLW, attrNoColonKeys, Bool.and_eq_true]
      exact ⟨h.1,
        attrNoColonKeys_removeKey k (attrDedupLW rest)
          (attrNoColonKeys_dedup rest h.2)⟩

theorem attrNoColonKeys_normAttrs (l : AttrList) :
    attrNoColonKeys (normAttrs l) = true := by
  induction l with
  | nil => rfl
  | cons k v rest ih =>
      simp only [normAttrs, attrNoColonKeys, Bool.and_eq_true]
      exact ⟨noColonStr_stripName k, ih⟩

theorem normAttrs_addPrefixAttrs (p : String) :
    ∀ l : AttrList, attrNoColonKeys l = true →
      normAttrs (addPrefixAttrs p l) = l
  | .nil => fun _ => rfl
  | .cons k v rest => by
      intro h
      simp only [attrNoColonKeys, Bool.and_eq_true] at h
      simp only [addPrefixAttrs, normAttrs]
      rw [stripName_prefixed p k h.1, normAttrs_addPrefixAttrs p rest h.2]

theorem attrKeys_normAttrs (l : AttrList) :
    attrKeys (normAttrs l) = (attrKeys l).map stripName := by
  induction l with
  | nil => rfl
  | cons k v rest ih => simp [normAttrs, attrKeys, ih]

theorem attrHasKey_eq_contains (k : String) (l : AttrList) :
    attrHasKey k l = (attrKeys l).contains k := by
  induction l with
  | nil => rfl
  | cons k2 v2 rest ih =>
      simp only [attrHasKey, attrKeys, List.contains_cons, ih]
      congr 1
      by_cases h : k2 = k
      · subst h; simp
      · have hb : (k == k2) = false := beq_eq_false_iff_ne.mpr (Ne.symm h)
        simp [h, hb]

theorem attrDistinct_eq_strDistinct (l : AttrList) :
    attrDistinct l = strDistinct (attrKeys l) := by
  induction l with
  | nil => rfl
  | cons k v rest ih =>
      simp only [attrDistinct, attrKeys, strDistinct, ih,
        attrHasKey_eq_contains]

theorem attrVals_normAttrs (l : AttrList) :
    attrVals (normAttrs l) = attrVals l := by
  induction l with
  | nil => rfl
  | cons k v rest ih => simp [normAttrs, attrVals, ih]

/-! ## Lemmas about the child-list machinery -/

theorem childHasKey_removeKey_self (k : String) :
    ∀ l : ChildList, childHasKey k (childRemoveKey k l) = false
  | .nil => rfl
  | .cons k2 c2 rest => by
      by_cases h : k2 = k
      · simp only [childRemoveKey, if_pos h]
        exact childHasKey_removeKey_self k rest
      · simp only [childRemoveKey, if_neg h, childHasKey, decide_eq_true_eq]
        simp [h, childHasKey_removeKey_self k rest]

theorem childHasKey_removeKey_le (k x : String) :
    ∀ l : ChildList, childHasKey x l = false →
      childHasKey x (childRemoveKey k l) = false
  | .nil => fun _ => rfl
  | .cons k2 c2 rest => by
      intro h
      simp only [childHasKey, Bool.or_eq_false_iff, decide_eq_false_iff_not] at h
      by_cases h2 : k2 = k
      · simp only [childRemoveKey, if_pos h2]
        exact childHasKey_removeKey_le k x rest h.2
      · simp only [childRemoveKey, if_neg h2, childHasKey, Bool.or_eq_false_iff,
          decide_eq_false_iff_not]
        exact ⟨h.1, childHasKey_removeKey_le k x rest h.2⟩

theorem childHasKey_dedup_le (x : String) :
    ∀ l : ChildList, childHasKey x l = false →
      childHasKey x (childDedupLW l) = false
  | .nil => fun _ => rfl
  | .cons k c rest => by
      intro h
      simp only [childHasKey, Bool.or_eq_false_iff, decide_eq_false_iff_not] at h
      simp only [childDedupLW, childHasKey, Bool.or_eq_false_iff,
        decide_eq_false_iff_not]
      exact ⟨h.1,
        childHasKey_removeKey_le k x (childDedupLW rest)
          (childHasKey_dedup_le x rest h.2)⟩

theorem childDistinct_removeKey (k : String) :
    ∀ l : ChildList, childDistinct l = true →
      childDistinct (childRemoveKey k l) = true
  | .nil => fun _ => rfl
  | .cons k2 c2 rest => by
      intro h
      simp only [childDistinct, Bool.and_eq_true, Bool.not_eq_true'] at h
      by_cases h2 : k2 = k
      · simp only [childRemoveKey, if_pos h2]
        exact childDistinct_removeKey k rest h.2
      · simp only [childRemoveKey, if_neg h2, childDistinct, Bool.and_eq_true,
          Bool.not_eq_true']
        exact ⟨childHasKey_removeKey_le k k2 rest h.1,
          childDistinct_removeKey k rest h.2⟩

theorem childDistinct_dedup :
    ∀ l : ChildList, childDistinct (childDedupLW l) = true
  | .nil => rfl
  | .cons k c rest => by
      simp only [childDedupLW, childDistinct, Bool.and_eq_true, Bool.not_eq_true']
      exact ⟨childHasKey_removeKey_self k (childDedupLW rest),
        childDistinct_removeKey k (childDedupLW rest) (childDistinct_dedup rest)⟩

theorem childLastVal_of_not_hasKey (k : String) (c : XmlChild) :
    ∀ l : ChildList, childHasKey k l = false → childLastVal k c l = c
  | .nil => fun _ => rfl
  | .cons k2 c2 rest => by
      intro h
      simp only [childHasKey, Bool.or_eq_false_iff, decide_eq_false_iff_not] at h
      simp only [childLastVal, if_neg h.1]
      exact childLastVal_of_not_hasKey k c rest h.2

theorem childRemoveKey_of_not_hasKey (k : String) :
    ∀ l : ChildList, childHasKey k l = false → childRemoveKey k l = l
  | .nil => fun _ => rfl
  | .cons k2 c2 rest => by
      intro h
      simp only [childHasKey, Bool.or_eq_false_iff, decide_eq_false_iff_not] at h
      simp only [childRemoveKey, if_neg h.1]
      rw [childRemoveKey_of_not_hasKey k rest h.2]

theorem childDedup_of_distinct :
    ∀ l : ChildList, childDistinct l = true → childDedupLW l = l
  | .nil => fun _ => rfl
  | .cons k c rest => by
      intro h
      simp only [childDistinct, Bool.and_eq_true, Bool.not_eq_true'] at h
      simp only [childDedupLW]
      rw [childLastVal_of_not_hasKey k c rest h.1,
        childDedup_of_distinct rest h.2,
        childRemoveKey_of_not_hasKey k rest h.1]

theorem childKeys_normChildren :
    ∀ l : ChildList, childKeys (normChildren l) = (childKeys l).map stripName
  | .nil => rfl
  | .cons k c rest => by
      simp [normChildren, childKeys, childKeys_normChildren rest]

theorem childHasKey_eq_contains (k : String) :
    ∀ l : ChildList, childHasKey k l = (childKeys l).contains k
  | .nil => rfl
  | .cons k2 c2 rest => by
      simp only [childHasKey, childKeys, List.contains_cons,
        childHasKey_eq_contains k rest]
      congr 1
      by_cases h : k2 = k
      · subst h; simp
      · have hb : (k == k2) = false := beq_eq_false_iff_ne.mpr (Ne.symm h)
        simp [h, hb]

theorem childDistinct_eq_strDistinct :
    ∀ l : ChildList, childDistinct l = strDistinct (childKeys l)
  | .nil => rfl
  | .cons k c rest => by
      simp only [childDistinct, childKeys, strDistinct,
        childDistinct_eq_strDistinct rest, childHasKey_eq_contains]

theorem strippedChild_childLastVal (k : String) (c : XmlChild) :
    ∀ l : ChildList, strippedChild c = true → strippedChildren l = true →
      strippedChild (childLastVal k c l) = true
  | .nil => fun hc _ => hc
  | .cons k2 c2 rest => by
      intro hc hl
      simp only [strippedChildren, Bool.and_eq_true] at hl
      simp only [childLastVal]
      by_cases h : k2 = k
      · rw [if_pos h]
        exact strippedChild_childLastVal k c2 rest hl.1.2 hl.2
      · rw [if_neg h]
        exact strippedChild_childLastVal k c rest hc hl.2

theorem strippedChildren_removeKey (k : String) :
    ∀ l : ChildList, strippedChildren l = true →
      strippedChildren (childRemoveKey k l) = true
  | .nil => fun _ => rfl
  | .cons k2 c2 rest => by
      intro h
      simp only [strippedChildren, Bool.and_eq_true] at h
      by_cases h2 : k2 = k
      · simp only [childRemoveKey, if_pos h2]
        exact strippedChildren_removeKey k rest h.2
      · simp only [childRemoveKey, if_neg h2, strippedChildren, Bool.and_eq_true]
        exact ⟨h.1, strippedChildren_removeKey k rest h.2⟩

theorem strippedChildren_dedup :
    ∀ l : ChildList, strippedChildren l = true →
      strippedChildren (childDedupLW l) = true
  | .nil => fun _ => rfl
  | .cons k c rest => by
      intro h
      simp only [strippedChildren, Bool.and_eq_true] at h
      simp only [childDedupLW, strippedChildren, Bool.and_eq_true]
      refine ⟨⟨h.1.1, strippedChild_childLastVal k c rest h.1.2 h.2⟩, ?_⟩
      exact strippedChildren_removeKey k (childDedupLW rest)
        (strippedChildren_dedup rest h.2)

/-! ## Normalization produces normalized trees -/

mutual
theorem strippedNode_norm : ∀ t : XmlNode, strippedNode (normNode t) = true
  | .leaf t attrs => by
      simp only [normNode, strippedNode, Bool.and_eq_true]
      exact ⟨attrDistinct_dedup _,
        attrNoColonKeys_dedup _ (attrNoColonKeys_normAttrs attrs)⟩
  | .branch ch => by
      simp only [normNode, strippedNode, Bool.and_eq_true]
      exact ⟨childDistinct_dedup _,
        strippedChildren_dedup _ (strippedChildren_norm ch)⟩
theorem strippedChildren_norm :
    ∀ l : ChildList, strippedChildren (normChildren l) = true
  | .nil => by simp [normChildren, strippedChildren]
  | .cons k c rest => by
      simp only [normChildren, strippedChildren, Bool.and_eq_true]
      exact ⟨⟨noColonStr_stripName k, strippedChild_norm c⟩,
        strippedChildren_norm rest⟩
theorem strippedChild_norm : ∀ c : XmlChild, strippedChild (normChild c) = true
  | .one n => by
      simp only [normChild, strippedChild]
      exact strippedNode_norm n
  | .many ns => by
      simp only [normChild, strippedChild]
      exact strippedSeq_norm ns
theorem strippedSeq_norm : ∀ s : NodeSeq, strippedSeq (normSeq s) = true
  | .nil => by simp [normSeq, strippedSeq]
  | .cons n rest => by
      simp only [normSeq, strippedSeq, Bool.and_eq_true]
      exact ⟨strippedNode_norm n, strippedSeq_norm rest⟩
end

/-! ## Stripping after re-prefixing recovers a normalized tree -/

mutual
theorem normNode_addPrefixNode (p : String) :
    ∀ t : XmlNode, strippedNode t = true → normNode (addPrefixNode p t) = t
  | .leaf t attrs => by
      intro h
      simp only [strippedNode, Bool.and_eq_true] at h
      simp only [addPrefixNode, normNode]
      rw [normAttrs_addPrefixAttrs p attrs h.2, attrDedup_of_distinct attrs h.1]
  | .branch ch => by
      intro h
      simp only [strippedNode, Bool.and_eq_true] at h
      simp only [addPrefixNode, normNode]
      rw [normChildren_addPrefixChildren p ch h.2,
        childDedup_of_distinct ch h.1]
theorem normChildren_addPrefixChildren (p : String) :
    ∀ l : ChildList, strippedChildren l = true →
      normChildren (addPrefixChildren p l) = l
  | .nil => fun _ => by simp [addPrefixChildren, normChildren]
  | .cons k c rest => by
      intro h
      simp only [strippedChildren, Bool.and_eq_true] at h
      simp only [addPrefixChildren, normChildren]
      rw [stripName_prefixed p k h.1.1, normChild_addPrefixChild p c h.1.2,
        normChildren_addPrefixChildren p rest h.2]
theorem normChild_addPrefixChild (p : String) :
    ∀ c : XmlChild, strippedChild c = true → normChild (addPrefixChild p c) = c
  | .one n => fun h => by
      simp only [addPrefixChild, normChild]
      rw [normNode_addPrefixNode p n (by simpa [strippedChild] using h)]
  | .many ns => fun h => by
      simp only [addPrefixChild, normChild]
      rw [normSeq_addPrefixSeq p ns (by simpa [strippedChild] using h)]
theorem normSeq_addPrefixSeq (p : String) :
    ∀ s : NodeSeq, strippedSeq s = true → normSeq (addPrefixSeq p s) = s
  | .nil => fun _ => by simp [addPrefixSeq, normSeq]
  | .cons n rest => fun h => by
      simp only [strippedSeq, Bool.and_eq_true] at h
      simp only [addPrefixSeq, normSeq]
      rw [normNode_addPrefixNode p n h.1, normSeq_addPrefixSeq p rest h.2]
end

/-! ## Normalization preserves shape and text on collision-free trees -/

mutual
theorem eraseNode_norm :
    ∀ t : XmlNode, noCollideNode t = true →
      eraseNode (normNode t) = eraseNode t
  | .leaf t attrs => by
      intro h
      simp only [noCollideNode] at h
      have hdist : attrDistinct (normAttrs attrs) = true := by
        rw [attrDistinct_eq_strDistinct, attrKeys_normAttrs]
        exact h
      simp only [normNode, eraseNode]
      rw [attrDedup_of_distinct _ hdist, attrVals_normAttrs]
  | .branch ch => by
      intro h
      simp only [noCollideNode, Bool.and_eq_true] at h
      have hdist : childDistinct (normChildren ch) = true := by
        rw [childDistinct_eq_strDistinct, childKeys_normChildren]
        exact h.1
      simp only [normNode, eraseNode]
      rw [childDedup_of_distinct _ hdist]
      exact congrArg ENode.branch (eraseChildren_norm ch h.2)
theorem eraseChildren_norm :
    ∀ l : ChildList, noCollideChildren l = true →
      eraseChildren (normChildren l) = eraseChildren l
  | .nil => fun _ => by simp [normChildren, eraseChildren]
  | .cons k c rest => fun h => by
      simp only [noCollideChildren, Bool.and_eq_true] at h
      simp only [normChildren, eraseChildren]
      rw [eraseChild_norm c h.1, eraseChildren_norm rest h.2]
theorem eraseChild_norm :
    ∀ c : XmlChild, noCollideChild c = true →
      eraseChild (normChild c) = eraseChild c
  | .one n => fun h => by
      simp only [normChild, eraseChild]
      rw [eraseNode_norm n (by simpa [noCollideChild] using h)]
  | .many ns => fun h => by
      simp only [normChild, eraseChild]
      rw [eraseSeq_norm ns (by simpa [noCollideChild] using h)]
theorem eraseSeq_norm :
    ∀ s : NodeSeq, noCollideSeq s = true → eraseSeq (normSeq s) = eraseSeq s
  | .nil => fun _ => by simp [normSeq, eraseSeq]
  | .cons n rest => fun h => by
      simp only [noCollideSeq, Bool.and_eq_true] at h
      simp only [normSeq, eraseSeq]
      rw [eraseNode_norm n h.1, eraseSeq_norm rest h.2]
end


/-! ## Helper lemmas about resolution and the processing pipeline -/

theorem resolveDocType_invalid (s : String) (h1 : s ≠ "") (h2 : s ≠ "invoice")
    (h3 : s ≠ "upo") (xml : ParsedXml) :
    resolveDocType (some s) xml =
      .error ("Invalid document type: " ++ s ++ ". Must be invoice or upo") := by
  simp [resolveDocType, validateDocumentType, h1, h2, h3]

theorem processFile_invalid_type (env : CliEnv) (s : String)
    (ht : env.typeArg = some s) (h1 : s ≠ "") (h2 : s ≠ "invoice")
    (h3 : s ≠ "upo") :
    (processFile env).2 = [] ∧ (processFile env).1.isOk = false := by
  simp only [processFile]
  by_cases hex : env.fileExists = false
  · simp [hex, Except.isOk, Except.toBool]
  · simp only [if_neg hex]
    by_cases htr : env.fileContent.trim = ""
    · simp [htr, Except.isOk, Except.toBool]
    · simp only [if_neg htr]
      cases hpr : env.parseResult with
      | error m => simp [Except.isOk, Except.toBool]
      | ok px =>
          rw [ht]
          simp [resolveDocType_invalid s h1 h2 h3, Except.isOk, Except.toBool]

theorem invoiceBlobResult_ok (env : CliEnv) (xml : ParsedXml) (blob : Blob)
    (h : invoiceBlobResult env xml = .ok blob) :
    ∃ b d, env.renderInvoice b d = some blob := by
  unfold invoiceBlobResult at h
  split at h
  · exact absurd h (by simp)
  · exact absurd h (by simp)
  · split at h
    · injection h with h2
      subst h2
      exact ⟨_, _, by assumption⟩
    · exact absurd h (by simp)

theorem upoBlobResult_ok (env : CliEnv) (xml : ParsedXml) (blob : Blob)
    (h : upoBlobResult env xml = .ok blob) :
    ∃ u, env.renderUpo u = some blob := by
  unfold upoBlobResult at h
  split at h
  · injection h with h2
    subst h2
    exact ⟨_, by assumption⟩
  · exact absurd h (by simp)

/-! ## The claims -/

/-- C1: With no caller override, classification proceeds in order: a
top-level `Faktura` key classifies the document as an invoice (the schema
version is the nested form-code attribute, and the version dispatch
recognizes exactly the three literal codes `FA (1)`, `FA (2)`, `FA (3)`);
otherwise a top-level `Potwierdzenie` key classifies it as UPO; otherwise
classification fails with the unrecognized-document-type error. -/
theorem c1_classification_order (xml : ParsedXml) :
    resolveDocType none xml = detectDocumentType xml ∧
    (xml.Faktura.isSome = true → detectDocumentType xml = .ok "invoice") ∧
    (xml.Faktura = none → xml.Potwierdzenie.isSome = true →
      detectDocumentType xml = .ok "upo") ∧
    (xml.Faktura = none → xml.Potwierdzenie = none →
      detectDocumentType xml =
        .error "Unable to detect document type. Use -t invoice or -t upo") ∧
    (∀ v : String, (generatePDFByVersion v).isSome = true ↔
      v = "FA (1)" ∨ v = "FA (2)" ∨ v = "FA (3)") ∧
    (∀ (f : Faktura) (v : String) (tag : BuilderTag) (n q : Option String),
      xml.Faktura = some f → readVersion f = some v →
      generatePDFByVersion v = some tag →
      generateInvoicePDF xml n q =
        .ok tag { nrKSeF := jsOrDefault n "CLI-GENERATED", qrCode := q }) := by
  refine ⟨rfl, ?_, ?_, ?_, ?_, ?_⟩
  · intro h
    simp [detectDocumentType, h]
  · intro hf hp
    simp [detectDocumentType, hf, hp]
  · intro hf hp
    simp [detectDocumentType, hf, hp]
  · intro v
    simp only [generatePDFByVersion]
    split_ifs with h1 h2 h3 <;> simp_all
  · intro f v tag n q hf hv htag
    have hne : v ≠ "" := by
      intro he
      subst he
      simp [generatePDFByVersion] at htag
    simp [generateInvoicePDF, hf, hv, jsFalsyStr, hne, htag]

/-- C1 witness: the order at concrete trees — a `Potwierdzenie`-only tree is
UPO, and a `Faktura` tree with code `FA (2)` dispatches to the FA2
builder. -/
theorem c1_classification_order_witness :
    detectDocumentType xmlUpoOnly = Except.ok "upo" ∧
    generateInvoicePDF (xmlWithCode "FA (2)") none none =
      GenOutcome.ok BuilderTag.generateFA2
        { nrKSeF := "CLI-GENERATED", qrCode := none } :=
  ⟨(c1_classification_order xmlUpoOnly).2.2.1 rfl rfl,
   (c1_classification_order (xmlWithCode "FA (2)")).2.2.2.2.2
     (fakturaWithCode "FA (2)") "FA (2)" .generateFA2 none none rfl rfl
     (by decide)⟩

/-- C2 counterexample: with the present but unrecognized form code
`FA (4)`, `generateInvoicePDF` does not fail with a descriptive error value
— the version `switch` yields no generator and the run dies on a runtime
`TypeError`. -/
theorem c2_unknown_version_counterexample :
    generateInvoicePDF (xmlWithCode "FA (4)") none none =
      GenOutcome.typeErrorCrash ∧
    isDescriptiveFailure
      (generateInvoicePDF (xmlWithCode "FA (4)") none none) = false :=
  ⟨rfl, rfl⟩

/-- C2 (amended): an absent or empty form code fails with the descriptive
`missing version information` error; a nonempty unrecognized code instead
crashes with a runtime type error (no descriptive failure value); a
recognized code dispatches to its builder. -/
theorem c2_version_error_handling (xml : ParsedXml) (f : Faktura)
    (n q : Option String) (hf : xml.Faktura = some f) :
    (readVersion f = none ∨ readVersion f = some "" →
      generateInvoicePDF xml n q =
        .descriptiveError "Invalid invoice XML: missing version information") ∧
    (∀ v : String, readVersion f = some v → v ≠ "" →
      generatePDFByVersion v = none →
      generateInvoicePDF xml n q = .typeErrorCrash) ∧
    (∀ (v : String) (tag : BuilderTag), readVersion f = some v →
      generatePDFByVersion v = some tag →
      generateInvoicePDF xml n q =
        .ok tag { nrKSeF := jsOrDefault n "CLI-GENERATED", qrCode := q }) := by
  refine ⟨?_, ?_, ?_⟩
  · intro hv
    rcases hv with hv | hv <;> simp [generateInvoicePDF, hf, hv, jsFalsyStr]
  · intro v hv hne htag
    simp [generateInvoicePDF, hf, hv, jsFalsyStr, hne, htag]
  · intro v tag hv htag
    have hne : v ≠ "" := by
      intro he
      subst he
      simp [generatePDFByVersion] at htag
    simp [generateInvoicePDF, hf, hv, jsFalsyStr, hne, htag]

/-- C2 witness: the amended behavior at the concrete unrecognized code
`FA (9)`. -/
theorem c2_version_error_handling_witness :
    generateInvoicePDF (xmlWithCode "FA (9)") none none =
      GenOutcome.typeErrorCrash :=
  (c2_version_error_handling (xmlWithCode "FA (9)") (fakturaWithCode "FA (9)")
      none none rfl).2.1 "FA (9)" rfl (by decide) (by decide)

/-- C3 counterexample: the empty string is a caller-supplied override other
than `invoice`/`upo`, yet processing does not fail — the classifier is
consulted (the result depends on the tree). -/
theorem c3_empty_override_counterexample :
    resolveDocType (some "") (xmlWithCode "FA (2)") = Except.ok "invoice" ∧
    resolveDocType (some "") xmlNeither =
      Except.error "Unable to detect document type. Use -t invoice or -t upo" :=
  ⟨rfl, rfl⟩

/-- C3 (amended): a nonempty override `invoice`/`upo` bypasses detection
and is used as-is; any other nonempty override fails with the
invalid-document-type error before any generation (no writes, no success);
an empty-string override is treated as no override and detection is
consulted. -/
theorem c3_override_handling (xml : ParsedXml) (s : String) :
    resolveDocType none xml = detectDocumentType xml ∧
    resolveDocType (some "invoice") xml = .ok "invoice" ∧
    resolveDocType (some "upo") xml = .ok "upo" ∧
    resolveDocType (some "") xml = detectDocumentType xml ∧
    (s ≠ "" → s ≠ "invoice" → s ≠ "upo" →
      resolveDocType (some s) xml =
        .error ("Invalid document type: " ++ s ++ ". Must be invoice or upo") ∧
      ∀ env : CliEnv, env.typeArg = some s →
        (processFile env).2 = [] ∧ (processFile env).1.isOk = false) := by
  refine ⟨rfl, rfl, rfl, rfl, ?_⟩
  intro h1 h2 h3
  refine ⟨resolveDocType_invalid s h1 h2 h3 xml, ?_⟩
  intro env ht
  exact processFile_invalid_type env s ht h1 h2 h3

/-- C3 witness: the amended behavior at the concrete invalid override
`xyz`. -/
theorem c3_override_handling_witness :
    resolveDocType (some "xyz") xmlNeither =
      Except.error ("Invalid document type: " ++ "xyz" ++
        ". Must be invoice or upo") ∧
    (processFile envInvalidType).2 = [] ∧
    (processFile envInvalidType).1.isOk = false :=
  let h := (c3_override_handling xmlNeither "xyz").2.2.2.2
    (by decide) (by decide) (by decide)
  ⟨h.1, h.2 envInvalidType rfl⟩

/-- C4 counterexample: with no registry number supplied, the
`AdditionalData` handed to the builder carries the sentinel
`CLI-GENERATED`, not the string `no number assigned` the spec names. -/
theorem c4_sentinel_counterexample :
    generateInvoicePDF (xmlWithCode "FA (1)") none (some "QR") =
      GenOutcome.ok BuilderTag.generateFA1
        { nrKSeF := "CLI-GENERATED", qrCode := some "QR" } ∧
    "CLI-GENERATED" ≠ "no number assigned" :=
  ⟨rfl, by decide⟩

/-- C4 (amended): with no registry number supplied, the `AdditionalData`
handed to the version builder carries the default sentinel `CLI-GENERATED`
in place of the missing value, and the optional QR payload is passed through
exactly as supplied. -/
theorem c4_default_additional_data (xml : ParsedXml) (f : Faktura)
    (v : String) (tag : BuilderTag) (qr : Option String)
    (hf : xml.Faktura = some f) (hv : readVersion f = some v)
    (htag : generatePDFByVersion v = some tag) :
    generateInvoicePDF xml none qr =
      .ok tag { nrKSeF := "CLI-GENERATED", qrCode := qr } := by
  have hne : v ≠ "" := by
    intro he
    subst he
    simp [generatePDFByVersion] at htag
  simp [generateInvoicePDF, hf, hv, jsFalsyStr, hne, htag, jsOrDefault]

/-- C4 witness: the amended behavior at a concrete FA3 invoice with a QR
payload and no registry number. -/
theorem c4_default_additional_data_witness :
    generateInvoicePDF (xmlWithCode "FA (3)") none (some "payload") =
      GenOutcome.ok BuilderTag.generateFA3
        { nrKSeF := "CLI-GENERATED", qrCode := some "payload" } :=
  c4_default_additional_data (xmlWithCode "FA (3)") (fakturaWithCode "FA (3)")
    "FA (3)" .generateFA3 (some "payload") rfl rfl (by decide)

/-- C5: The assembled page descriptor has page size A4, and orientation is
determined solely by kind: landscape for every UPO document definition,
portrait for every invoice document. -/
theorem c5_page_descriptor (upo : Upo) (version : String) :
    (generatePDFUPOFromParsed upo).pageSize = "A4" ∧
    (generatePDFUPOFromParsed upo).pageOrientation = "landscape" ∧
    invoicePageDescriptor version = ("A4", "portrait") :=
  ⟨rfl, rfl, rfl⟩

/-- C6: One run of `processFile` either fails with exactly one descriptive
failure and writes nothing, or succeeds and performs exactly one write of a
blob the external renderer produced, at the derived output path, after
generation. -/
theorem c6_no_partial_output (env : CliEnv) :
    ((processFile env).1.isOk = false ∧ (processFile env).2 = []) ∨
    (∃ (r : SuccessResult) (blob : Blob),
      (processFile env).1 = .ok r ∧
      (processFile env).2 = [(getOutputPath env.inputPath env.outputArg, blob)] ∧
      r.size = blob.bytes.length ∧
      ((∃ b d, env.renderInvoice b d = some blob) ∨
       (∃ u, env.renderUpo u = some blob))) := by
  by_cases hex : env.fileExists = false
  · left
    constructor <;> simp [processFile, hex, Except.isOk, Except.toBool]
  · by_cases htr : env.fileContent.trim = ""
    · left
      constructor <;> simp [processFile, hex, htr, Except.isOk, Except.toBool]
    · cases hpr : env.parseResult with
      | error m =>
          left
          constructor <;>
            simp [processFile, hex, htr, hpr, Except.isOk, Except.toBool]
      | ok px =>
          cases hrt : resolveDocType env.typeArg px with
          | error m =>
              left
              constructor <;>
                simp [processFile, hex, htr, hpr, hrt, Except.isOk, Except.toBool]
          | ok docType =>
              cases hblob : (if docType = "invoice" then
                  invoiceBlobResult env px else upoBlobResult env px) with
              | error m =>
                  left
                  constructor <;>
                    simp [processFile, hex, htr, hpr, hrt, hblob, Except.isOk,
                      Except.toBool]
              | ok blob =>
                  have hpf : processFile env =
                      (.ok { input := basenameStr env.inputPath
                             output := basenameStr
                               (getOutputPath env.inputPath env.outputArg)
                             type := docType
                             size := blob.bytes.length },
                       [(getOutputPath env.inputPath env.outputArg, blob)]) := by
                    simp [processFile, hex, htr, hpr, hrt, hblob]
                  right
                  refine ⟨{ input := basenameStr env.inputPath
                            output := basenameStr
                              (getOutputPath env.inputPath env.outputArg)
                            type := docType
                            size := blob.bytes.length }, blob,
                    ?_, ?_, rfl, ?_⟩
                  · rw [hpf]
                  · rw [hpf]
                  · by_cases hdt : docType = "invoice"
                    · rw [if_pos hdt] at hblob
                      exact Or.inl (invoiceBlobResult_ok env px blob hblob)
                    · rw [if_neg hdt] at hblob
                      exact Or.inr (upoBlobResult_ok env px blob hblob)

/-- C7: The UPO assembler installs a footer generating rule: for every pair
of renderer-supplied page numbers it returns a right-aligned text node whose
text is the decimal current page, then ` z `, then the decimal page
count. -/
theorem c7_footer_rule (upo : Upo) (currentPage pageCount : Nat) :
    (generatePDFUPOFromParsed upo).footer currentPage pageCount =
      { text := Nat.repr currentPage ++ " z " ++ Nat.repr pageCount
        alignment := Position.RIGHT
        margin := [0, 0, 20, 0] } :=
  rfl

/-- C8: The currency formatter is total and never throws: the numeric
string `1234.5` becomes the fixed two-decimal `1234.50`, and every
non-numeric string passes through unchanged. -/
theorem c8_currency_formatter :
    formatCurrency "1234.5" = "1234.50" ∧
    (∀ s : String, parseDecimal s = none → formatCurrency s = s) := by
  refine ⟨by decide, ?_⟩
  intro s h
  simp [formatCurrency, h]

/-- C8 witness: the pass-through clause at the concrete non-numeric input
`abc`. -/
theorem c8_currency_formatter_witness : formatCurrency "abc" = "abc" :=
  c8_currency_formatter.2 "abc" rfl

/-- C9: Prefix stripping is idempotent under re-prefixing — normalizing,
re-attaching any fixed prefix to every key, and normalizing again equals
normalizing once — and on collision-free trees normalization preserves
structural shape (leaf vs. branch vs. sequence) and text content exactly. -/
theorem c9_strip_idempotent_shape_preserving :
    (∀ (t : XmlNode) (p : String),
      stripPrefixes (addPrefixNode p (stripPrefixes t)) = stripPrefixes t) ∧
    (∀ t : XmlNode, noCollideNode t = true →
      eraseNode (stripPrefixes t) = eraseNode t) := by
  constructor
  · intro t p
    exact normNode_addPrefixNode p (normNode t) (strippedNode_norm t)
  · intro t h
    exact eraseNode_norm t h

/-- C9 witness: shape/text preservation at a concrete collision-free
prefixed tree. -/
theorem c9_strip_idempotent_shape_preserving_witness :
    noCollideNode prefixedSampleTree = true ∧
    eraseNode (stripPrefixes prefixedSampleTree) = eraseNode prefixedSampleTree :=
  ⟨by decide,
   c9_strip_idempotent_shape_preserving.2 prefixedSampleTree (by decide)⟩

/-- C10: With no explicit output path, a trailing `.xml` suffix matched
case-insensitively is replaced by `.pdf`; any other input path gains a
`.pdf` suffix. -/
theorem c10_output_path_derivation :
    (∀ stem suf : String, isXmlSuffixCI suf = true →
      getOutputPath (stem ++ suf) none = stem ++ ".pdf") ∧
    (∀ p : String, isXmlSuffixCI (lastFour p) = false →
      getOutputPath p none = p ++ ".pdf") := by
  constructor
  · intro stem suf h
    simp only [isXmlSuffixCI, decide_eq_true_eq] at h
    have hlen : suf.data.length = 4 := by
      have := congrArg List.length h
      simpa using this
    have hlow : (jsToLower (stem ++ suf)).data
        = stem.data.map lowerChar ++ ['.', 'x', 'm', 'l'] := by
      show (stem ++ suf).data.map lowerChar
          = stem.data.map lowerChar ++ ['.', 'x', 'm', 'l']
      rw [String.data_append, List.map_append, h]
    have hends : jsEndsWith (jsToLower (stem ++ suf)) ".xml" = true := by
      simp only [jsEndsWith]
      rw [List.isSuffixOf_iff_suffix]
      show ['.', 'x', 'm', 'l'] <:+ (jsToLower (stem ++ suf)).data
      rw [hlow]
      exact List.suffix_append _ _
    have hdrop : jsDropLast4 (stem ++ suf) = stem := by
      simp only [jsDropLast4, String.data_append, List.length_append, hlen]
      have h4 : stem.data.length + 4 - 4 = stem.data.length := by omega
      rw [h4, List.take_left]
    simp [getOutputPath, hends, hdrop]
  · intro p h
    by_cases hends : jsEndsWith (jsToLower p) ".xml" = true
    · exfalso
      simp only [jsEndsWith, List.isSuffixOf_iff_suffix] at hends
      obtain ⟨t, ht⟩ := hends
      have hmap : (jsToLower p).data = p.data.map lowerChar := rfl
      rw [hmap] at ht
      have hlenp : p.data.length = t.length + 4 := by
        have := congrArg List.length ht
        simpa using this.symm
      have hdrop : (p.data.map lowerChar).drop (p.data.length - 4)
          = ['.', 'x', 'm', 'l'] := by
        have h4 : p.data.length - 4 = t.length := by omega
        rw [h4, ← ht]
        exact List.drop_left t _
      have : isXmlSuffixCI (lastFour p) = true := by
        simp only [isXmlSuffixCI, decide_eq_true_eq]
        show (p.data.drop (p.data.length - 4)).map lowerChar
            = ['.', 'x', 'm', 'l']
        rw [List.map_drop]
        exact hdrop
      rw [this] at h
      exact absurd h (by simp)
    · simp only [getOutputPath, if_neg hends]

/-- C10 witness: a `.XML` suffix is replaced case-insensitively, and a
non-`.xml` path gains a `.pdf` suffix. -/
theorem c10_output_path_derivation_witness :
    isXmlSuffixCI ".XML" = true ∧
    getOutputPath ("faktura" ++ ".XML") none = "faktura" ++ ".pdf" ∧
    isXmlSuffixCI (lastFour "upo.txt") = false ∧
    getOutputPath "upo.txt" none = "upo.txt" ++ ".pdf" :=
  ⟨by decide, c10_output_path_derivation.1 "faktura" ".XML" (by decide),
   by decide, c10_output_path_derivation.2 "upo.txt" (by decide)⟩
